import Mathlib

/-!
Shallow embedding of the two filtering cores of the NC555/noy-portfolio
repository:

* the gallery tag filter of `src/components/gallery/gallery-client.tsx`
  (the `uniqueTags` / `allTags` / `filteredPhotos` computations, called
  `deriveTagUniverse` and `filterByTag` in the specification), and
* the contribution-calendar date-window filter `filterLastNMonths`.

JavaScript conventions modelled explicitly:
* a record whose `tags` field is `undefined` is modelled with
  `tags = none`; a present array is `some ts`;
* `Array.prototype.flatMap` over a callback that returns `undefined`
  inserts the single value `undefined` into the result, modelled as the
  element `none` of `List (Option String)`;
* `.filter(Boolean)` drops `undefined` and the empty string (the only
  falsy strings);
* `photos.filter((p) => p.tags.includes(t))` throws a `TypeError` when
  some `p.tags` is `undefined`; the fallible filter therefore returns
  `Option (List _)`, `none` standing for the thrown exception;
* `new Date(string)` yields either a millisecond timestamp or
  `Invalid Date` (`NaN`); the parsed date of a contribution is
  `Option Int`, `none` standing for `NaN`.  `NaN >= x` is `false`;
* `new Date(y, m, d)` (month index `m` 0-based, arbitrary integers)
  normalizes its arguments by calendar rollover; it is modelled by
  `jsMakeDate`, built on the standard civil-calendar day count
  `daysFromCivil`.  All date values live in a single time zone.
-/

/-- A gallery record (`PhotoMetadata` in the source): an optional `tags`
array plus an opaque payload (title, url, …) that the filters never
inspect.  `tags = none` models a record whose `tags` field is missing. -/
structure PhotoMetadata (α : Type) where
  tags : Option (List String)
  payload : α
deriving DecidableEq

/-- Embeds `photos.flatMap((photo) => photo.tags)`: a record with
`tags = undefined` contributes the single element `undefined`. -/
def flatTags {α : Type} (R : List (PhotoMetadata α)) : List (Option String) :=
  R.flatMap (fun r =>
    match r.tags with
    | none => [none]
    | some ts => ts.map some)

/-- First-occurrence deduplication with the set of already-seen values as
accumulator: how a JavaScript `Set` is built by insertion. -/
def dedupSeen {β : Type} [DecidableEq β] (seen : List β) : List β → List β
  | [] => []
  | x :: xs => if x ∈ seen then dedupSeen seen xs else x :: dedupSeen (x :: seen) xs

/-- First-occurrence deduplication, the insertion-order semantics of
`Array.from(new Set(xs))`. -/
def dedupFirst {β : Type} [DecidableEq β] (l : List β) : List β :=
  dedupSeen [] l

/-- JavaScript truthiness of a possibly-`undefined` string:
`undefined` and `""` are falsy. -/
def jsTruthy : Option String → Bool
  | none => false
  | some s => s ≠ ""

/-- Embeds `allTags = ["All", ...Array.from(new Set(photos.flatMap(p => p.tags))).filter(Boolean)]`. -/
def deriveTagUniverse {α : Type} (R : List (PhotoMetadata α)) : List String :=
  "All" :: ((dedupFirst (flatTags R)).filter jsTruthy).filterMap id

/-- The tag-occurrence list of the spec: all tags of all records,
records left-to-right, each tag list left-to-right, a missing `tags`
field contributing nothing. -/
def tagOccurrences {α : Type} (R : List (PhotoMetadata α)) : List String :=
  R.flatMap (fun r => r.tags.getD [])

/-- The tag universe as the specification words it: `"All"` first, then
every distinct non-empty tag in order of first appearance. -/
def specTagUniverse {α : Type} (R : List (PhotoMetadata α)) : List String :=
  "All" :: dedupFirst ((tagOccurrences R).filter (fun s => s ≠ ""))

/-- The loop body of `photos.filter((photo) => photo.tags.includes(selectedTag))`:
`none` models the `TypeError` thrown when the `tags` of a record is `undefined`. -/
def filterTagsGo {α : Type} (T : String) : List (PhotoMetadata α) → Option (List (PhotoMetadata α))
  | [] => some []
  | r :: rs =>
    match r.tags with
    | none => none
    | some ts =>
      (filterTagsGo T rs).map (fun rest => if ts.contains T then r :: rest else rest)

/-- Embeds `filteredPhotos = selectedTag === "All" ? photos : photos.filter((p) => p.tags.includes(selectedTag))`. -/
def filterByTag {α : Type} (R : List (PhotoMetadata α)) (T : String) : Option (List (PhotoMetadata α)) :=
  if T = "All" then some R else filterTagsGo T R

/-- Number of days between a civil date (1-based month `m`) and
1970-01-01, by the standard era decomposition of the proleptic Gregorian
calendar.  The function is affine in `d`, so a `d` beyond the end of the
month rolls over into the following months, exactly as the JavaScript
`Date` constructor normalizes an out-of-range day-of-month. -/
def daysFromCivil (y m d : Int) : Int :=
  let yAdj := if m ≤ 2 then y - 1 else y
  let era := yAdj / 400
  let yoe := yAdj - era * 400
  let mp := (m + 9) % 12
  let doy := (153 * mp + 2) / 5 + d - 1
  let doe := yoe * 365 + yoe / 4 - yoe / 100 + doy
  era * 146097 + doe - 719468

def msPerDay : Int := 86400000

/-- Embeds `new Date(y, m0, d)`: the millisecond value at midnight of the civil
date given by year `y`, 0-based month index `m0` and day-of-month `d`,
with calendar rollover for out-of-range `m0` or `d`.  The whole model
lives in a single time zone. -/
def jsMakeDate (y m0 d : Int) : Int :=
  msPerDay * daysFromCivil (y + m0 / 12) (m0 % 12 + 1) d

/-- The value of `new Date()` inside the filter, as its observed
components: `getFullYear()`, `getMonth()` (0-based), `getDate()`
(1-based) and the elapsed milliseconds since the midnight of that day. -/
structure Instant where
  year : Int
  month : Int
  day : Int
  msOfDay : Int
deriving DecidableEq

/-- The millisecond timestamp of an instant. -/
def Instant.ts (t : Instant) : Int :=
  jsMakeDate t.year t.month t.day + t.msOfDay

/-- A contribution-calendar record.  `date` is the result of
`new Date(day.date)` on its date string: `some t` for a parsed
millisecond timestamp, `none` for `Invalid Date` (`NaN`), produced by an
unparseable or out-of-range string. -/
structure ContributionDay where
  date : Option Int
  count : Int
deriving DecidableEq

/-- The `while (cutoffMonth < 0) { cutoffMonth += 12; cutoffYear -= 1; }`
loop of `filterLastNMonths`. -/
def borrowMonths (y c : Int) : Int × Int :=
  if c < 0 then borrowMonths (y - 1) (c + 12) else (y, c)
termination_by (-c).toNat
decreasing_by omega

/-- Embeds `filterLastNMonths(contributions, months = 11)` of the coding-stats
component, with the ambient `new Date()` made an explicit `today`
parameter as the specification directs.  A record whose `date` is
`Invalid Date` fails the `date >= cutoffDate` comparison (`NaN`
compares false), so it is dropped. -/
def filterLastNMonths (contributions : List ContributionDay) (today : Instant)
    (months : Int := 11) : List ContributionDay :=
  let cutoffMonth := today.month - months
  let cutoffYear := today.year
  let yc := borrowMonths cutoffYear cutoffMonth
  let cutoffDate := jsMakeDate yc.1 yc.2 today.day
  contributions.filter (fun day =>
    match day.date with
    | none => false
    | some t => cutoffDate ≤ t)

theorem dedupSeen_filter_congr {β : Type} [DecidableEq β] (p : β → Bool) :
    ∀ (l : List β) (seen₁ seen₂ : List β),
      (∀ a, p a = true → (a ∈ seen₁ ↔ a ∈ seen₂)) →
      dedupSeen seen₁ (l.filter p) = (dedupSeen seen₂ l).filter p := by
  intro l
  induction l with
  | nil => intro seen₁ seen₂ _; rfl
  | cons x xs ih =>
    intro seen₁ seen₂ hcong
    by_cases hpx : p x = true
    · rw [List.filter_cons_of_pos hpx]
      by_cases hx2 : x ∈ seen₂
      · have hx1 : x ∈ seen₁ := (hcong x hpx).mpr hx2
        rw [dedupSeen, if_pos hx1, dedupSeen, if_pos hx2, ih seen₁ seen₂ hcong]
      · have hx1 : x ∉ seen₁ := fun h => hx2 ((hcong x hpx).mp h)
        rw [dedupSeen, if_neg hx1, dedupSeen, if_neg hx2,
          List.filter_cons_of_pos hpx]
        congr 1
        refine ih (x :: seen₁) (x :: seen₂) ?_
        intro a hpa
        simp only [List.mem_cons]
        rw [hcong a hpa]
    · rw [List.filter_cons_of_neg (by simp [hpx])]
      by_cases hx2 : x ∈ seen₂
      · rw [dedupSeen, if_pos hx2, ih seen₁ seen₂ hcong]
      · rw [dedupSeen, if_neg hx2, List.filter_cons_of_neg (by simp [hpx])]
        refine ih seen₁ (x :: seen₂) ?_
        intro a hpa
        have hax : a ≠ x := fun h => hpx (h ▸ hpa)
        simp only [List.mem_cons]
        rw [hcong a hpa]
        simp [hax]

/-- On any list, first-occurrence deduplication commutes with filtering
by a pointwise predicate. -/
theorem dedupFirst_filter {β : Type} [DecidableEq β] (p : β → Bool) (l : List β) :
    dedupFirst (l.filter p) = (dedupFirst l).filter p :=
  dedupSeen_filter_congr p l [] [] (by simp)

theorem dedupSeen_map_some : ∀ (l seen : List String),
    dedupSeen (seen.map some) (l.map some) = (dedupSeen seen l).map some := by
  intro l
  induction l with
  | nil => intro seen; rfl
  | cons x xs ih =>
    intro seen
    by_cases hx : x ∈ seen
    · rw [List.map_cons, dedupSeen, if_pos (List.mem_map_of_mem some hx),
        dedupSeen, if_pos hx, ih seen]
    · have hx2 : some x ∉ seen.map some := by
        simp only [List.mem_map]
        rintro ⟨a, ha, hax⟩
        exact hx ((Option.some_injective _ hax) ▸ ha)
      rw [List.map_cons, dedupSeen, if_neg hx2, dedupSeen, if_neg hx,
        List.map_cons]
      exact congrArg _ (ih (x :: seen))

theorem flatTags_filter_jsTruthy {α : Type} (R : List (PhotoMetadata α)) :
    (flatTags R).filter jsTruthy
      = ((tagOccurrences R).filter (fun s => s ≠ "")).map some := by
  induction R with
  | nil => rfl
  | cons r rs ih =>
    rw [flatTags, List.flatMap_cons, tagOccurrences, List.flatMap_cons,
      List.filter_append, List.filter_append, List.map_append]
    rw [flatTags, tagOccurrences] at ih
    rw [ih]
    congr 1
    match h : r.tags with
    | none => rfl
    | some ts =>
      rw [Option.getD_some, List.filter_map]
      congr 1

/-- The tag universe the component computes is exactly the universe the
specification describes: `"All"`, then the distinct non-empty tags in
first-appearance order, records with a missing `tags` field contributing
nothing. -/
theorem deriveTagUniverse_eq_spec {α : Type} (R : List (PhotoMetadata α)) :
    deriveTagUniverse R = specTagUniverse R := by
  rw [deriveTagUniverse, specTagUniverse, ← dedupFirst_filter,
    flatTags_filter_jsTruthy, dedupFirst, dedupFirst]
  have h := dedupSeen_map_some ((tagOccurrences R).filter (fun s => s ≠ "")) []
  rw [List.map_nil] at h
  rw [h, List.filterMap_map]
  have hid : (id ∘ (some : String → Option String)) = some := rfl
  rw [hid, List.filterMap_some]

theorem dedupSeen_mem {β : Type} [DecidableEq β] :
    ∀ (l seen : List β) (a : β), a ∈ dedupSeen seen l → a ∈ l ∧ a ∉ seen := by
  intro l
  induction l with
  | nil => intro seen a h; exact absurd h (List.not_mem_nil a)
  | cons x xs ih =>
    intro seen a h
    rw [dedupSeen] at h
    by_cases hx : x ∈ seen
    · rw [if_pos hx] at h
      obtain ⟨h1, h2⟩ := ih seen a h
      exact ⟨List.mem_cons_of_mem x h1, h2⟩
    · rw [if_neg hx] at h
      rcases List.mem_cons.mp h with rfl | h
      · exact ⟨List.mem_cons_self a xs, hx⟩
      · obtain ⟨h1, h2⟩ := ih (x :: seen) a h
        exact ⟨List.mem_cons_of_mem x h1, fun hs => h2 (List.mem_cons_of_mem x hs)⟩

theorem dedupSeen_nodup {β : Type} [DecidableEq β] :
    ∀ (l seen : List β), (dedupSeen seen l).Nodup := by
  intro l
  induction l with
  | nil => intro seen; exact List.nodup_nil
  | cons x xs ih =>
    intro seen
    rw [dedupSeen]
    by_cases hx : x ∈ seen
    · rw [if_pos hx]; exact ih seen
    · rw [if_neg hx]
      refine List.nodup_cons.mpr ⟨?_, ih (x :: seen)⟩
      intro hmem
      exact (dedupSeen_mem xs (x :: seen) x hmem).2 (List.mem_cons_self x seen)

/-- The function `dedupFirst` keeps only elements of its input and never duplicates. -/
theorem dedupFirst_mem_nodup {β : Type} [DecidableEq β] (l : List β) :
    (∀ a ∈ dedupFirst l, a ∈ l) ∧ (dedupFirst l).Nodup :=
  ⟨fun a h => (dedupSeen_mem l [] a h).1, dedupSeen_nodup l []⟩

theorem filterTagsGo_eq_filter {α : Type} (T : String) :
    ∀ (R : List (PhotoMetadata α)), (∀ r ∈ R, r.tags ≠ none) →
      filterTagsGo T R = some (R.filter (fun r => (r.tags.getD []).contains T)) := by
  intro R
  induction R with
  | nil => intro _; rfl
  | cons r rs ih =>
    intro h
    match hts : r.tags with
    | none => exact absurd hts (h r (List.mem_cons_self r rs))
    | some ts =>
      rw [filterTagsGo, hts, ih (fun a ha => h a (List.mem_cons_of_mem r ha))]
      dsimp only [Option.map_some']
      rw [List.filter_cons]
      have hp : (r.tags.getD []).contains T = ts.contains T := by rw [hts]; rfl
      rw [hp]

theorem filterTagsGo_of_missing {α : Type} (T : String) :
    ∀ (R : List (PhotoMetadata α)), (∃ r ∈ R, r.tags = none) →
      filterTagsGo T R = none := by
  intro R
  induction R with
  | nil => rintro ⟨r, hr, _⟩; exact absurd hr (List.not_mem_nil r)
  | cons r rs ih =>
    rintro ⟨a, ha, hnone⟩
    rcases List.mem_cons.mp ha with rfl | ha
    · rw [filterTagsGo, hnone]
    · match hts : r.tags with
      | none => rw [filterTagsGo, hts]
      | some ts =>
        rw [filterTagsGo, hts, ih ⟨a, ha, hnone⟩]
        rfl

theorem filterTagsGo_sublist {α : Type} (T : String) :
    ∀ (R l : List (PhotoMetadata α)), filterTagsGo T R = some l → List.Sublist l R := by
  intro R
  induction R with
  | nil =>
    intro l h
    rw [filterTagsGo] at h
    cases Option.some_injective _ h
    exact List.Sublist.refl []
  | cons r rs ih =>
    intro l h
    rw [filterTagsGo] at h
    match hts : r.tags with
    | none => rw [hts] at h; exact absurd h (Option.noConfusion)
    | some ts =>
      rw [hts] at h
      obtain ⟨rest, hrest, hl⟩ := Option.map_eq_some'.mp h
      by_cases hc : ts.contains T = true
      · rw [if_pos hc] at hl
        exact hl ▸ List.Sublist.cons₂ r (ih rest hrest)
      · rw [if_neg hc] at hl
        exact hl ▸ List.Sublist.cons r (ih rest hrest)

theorem borrowMonths_neg (y c : Int) (h : c < 0) :
    borrowMonths y c = borrowMonths (y - 1) (c + 12) := by
  rw [borrowMonths]
  simp [h]

theorem borrowMonths_nonneg (y c : Int) (h : 0 ≤ c) :
    borrowMonths y c = (y, c) := by
  rw [borrowMonths]
  simp [Int.not_lt.mpr h]

theorem borrowMonths_eq_aux (n : Nat) : ∀ (y c : Int), (-c).toNat ≤ n → c < 12 →
    borrowMonths y c = (y + c / 12, c % 12) := by
  induction n with
  | zero =>
    intro y c hn hc
    have h0 : 0 ≤ c := by omega
    rw [borrowMonths_nonneg y c h0]
    have h1 : c / 12 = 0 := by omega
    have h2 : c % 12 = c := by omega
    rw [h1, h2, Int.add_zero]
  | succ n ih =>
    intro y c hn hc
    by_cases hneg : c < 0
    · rw [borrowMonths_neg y c hneg, ih (y - 1) (c + 12) (by omega) (by omega)]
      have h1 : (c + 12) / 12 = c / 12 + 1 := by omega
      have h2 : (c + 12) % 12 = c % 12 := by omega
      rw [h1, h2]
      congr 1
      omega
    · rw [borrowMonths_nonneg y c (by omega)]
      have h1 : c / 12 = 0 := by omega
      have h2 : c % 12 = c := by omega
      rw [h1, h2, Int.add_zero]

/-- Closed form of the month-borrowing loop: for any starting month
value below 12 it lands on the floor-division decomposition by 12. -/
theorem borrowMonths_eq (y c : Int) (hc : c < 12) :
    borrowMonths y c = (y + c / 12, c % 12) :=
  borrowMonths_eq_aux (-c).toNat y c le_rfl hc

example : daysFromCivil 1970 1 1 = 0 := by decide
example : daysFromCivil 2000 3 1 = 11017 := by decide
example : jsMakeDate 2024 0 10 = msPerDay * daysFromCivil 2024 1 10 := by decide
example : borrowMonths 2024 (0 - 14) = (2022, 10) := by
  rw [borrowMonths_eq 2024 (0 - 14) (by norm_num)]
  decide

example : deriveTagUniverse
    [ PhotoMetadata.mk (some ["a", "b"]) 0
    , PhotoMetadata.mk (some ["b"]) 1
    , PhotoMetadata.mk (some []) 2 ] = ["All", "a", "b"] := by decide

example : filterByTag
    [ PhotoMetadata.mk (some ["a", "b"]) 0
    , PhotoMetadata.mk (some ["b"]) 1
    , PhotoMetadata.mk (some []) 2 ] "b"
  = some [PhotoMetadata.mk (some ["a", "b"]) 0, PhotoMetadata.mk (some ["b"]) 1] := by decide

example : filterByTag [PhotoMetadata.mk (none : Option (List String)) 0] "x" = none := by decide

example : deriveTagUniverse
    [ PhotoMetadata.mk (none : Option (List String)) 0
    , PhotoMetadata.mk (some ["", "c"]) 1 ] = ["All", "c"] := by decide

theorem filterLastNMonths_mem (cs : List ContributionDay) (today : Instant)
    (w : Int) (c : ContributionDay) :
    c ∈ filterLastNMonths cs today w ↔
      c ∈ cs ∧ ∃ t, c.date = some t ∧
        jsMakeDate (borrowMonths today.year (today.month - w)).1
          (borrowMonths today.year (today.month - w)).2 today.day ≤ t := by
  rw [filterLastNMonths, List.mem_filter]
  refine and_congr_right (fun _ => ?_)
  match hd : c.date with
  | none => simp
  | some t => simp

theorem nonneg_window_borrow (today : Instant) (hm0 : 0 ≤ today.month) :
    borrowMonths today.year (today.month - 0) = (today.year, today.month) := by
  rw [Int.sub_zero]
  exact borrowMonths_nonneg today.year today.month hm0

/-- C5: for every contribution collection, every `now` with valid
month/day components, and every `windowMonths ≥ 0`, the cutoff of the filter
is obtained from `cutoffMonth = now.month - windowMonths` by borrowing
whole years while negative (closed form: floor division by 12), the
cutoff date reuses the day-of-month of `now`, and a record is kept iff its
date is at or after the cutoff (inclusive).  For `windowMonths = 14` and
`now = 2024-01-10` the loop borrows two years and the cutoff is
2022-11-10 (month index 10 = November). -/
theorem C5_cutoff_algorithm (cs : List ContributionDay) (today : Instant)
    (w : Int) (hw : 0 ≤ w) (hm0 : 0 ≤ today.month) (hm1 : today.month ≤ 11) :
    (∀ c, c ∈ filterLastNMonths cs today w ↔
        c ∈ cs ∧ ∃ t, c.date = some t ∧
          jsMakeDate (today.year + (today.month - w) / 12)
            ((today.month - w) % 12) today.day ≤ t)
  ∧ borrowMonths 2024 (0 - 14) = (2022, 10)
  ∧ jsMakeDate 2022 10 10 = msPerDay * daysFromCivil 2022 11 10 := by
  refine ⟨?_, ?_, ?_⟩
  · intro c
    rw [filterLastNMonths_mem cs today w c,
      borrowMonths_eq today.year (today.month - w) (by omega)]
  · rw [borrowMonths_eq 2024 (0 - 14) (by norm_num)]
    decide
  · decide

/-- Closed witness for C5 at `now = 2024-01-10`, `windowMonths = 14`:
a contribution at exactly the cutoff instant 2022-11-10 is kept. -/
theorem C5_witness :
    ((∀ c, c ∈ filterLastNMonths [ContributionDay.mk (some (jsMakeDate 2022 10 10)) 1]
          (Instant.mk 2024 0 10 0) 14 ↔
        c ∈ [ContributionDay.mk (some (jsMakeDate 2022 10 10)) 1] ∧
          ∃ t, c.date = some t ∧
            jsMakeDate (2024 + ((0 : Int) - 14) / 12)
              (((0 : Int) - 14) % 12) 10 ≤ t)
  ∧ borrowMonths 2024 (0 - 14) = (2022, 10)
  ∧ jsMakeDate 2022 10 10 = msPerDay * daysFromCivil 2022 11 10)
  ∧ ContributionDay.mk (some (jsMakeDate 2022 10 10)) 1 ∈
      filterLastNMonths [ContributionDay.mk (some (jsMakeDate 2022 10 10)) 1]
        (Instant.mk 2024 0 10 0) 14 := by
  have h := C5_cutoff_algorithm [ContributionDay.mk (some (jsMakeDate 2022 10 10)) 1]
    (Instant.mk 2024 0 10 0) 14 (by decide) (by decide) (by decide)
  refine ⟨h, ?_⟩
  refine (h.1 (ContributionDay.mk (some (jsMakeDate 2022 10 10)) 1)).mpr ?_
  refine ⟨List.mem_cons_self _ _, jsMakeDate 2022 10 10, rfl, ?_⟩
  decide

/-- C6: when the caller omits `months` the filter uses an 11-month
window; with that default and `now = 2024-06-15` (midnight) the cutoff
is 2023-07-15: a contribution dated 2023-07-14 is dropped while ones
dated 2023-07-15 and 2023-07-16 are kept. -/
theorem C6_default_window :
    (∀ (cs : List ContributionDay) (today : Instant),
        filterLastNMonths cs today = filterLastNMonths cs today 11)
  ∧ filterLastNMonths
      [ ContributionDay.mk (some (jsMakeDate 2023 6 14)) 1
      , ContributionDay.mk (some (jsMakeDate 2023 6 15)) 2
      , ContributionDay.mk (some (jsMakeDate 2023 6 16)) 3 ]
      (Instant.mk 2024 5 15 0)
    = [ ContributionDay.mk (some (jsMakeDate 2023 6 15)) 2
      , ContributionDay.mk (some (jsMakeDate 2023 6 16)) 3 ] := by
  refine ⟨fun cs today => rfl, ?_⟩
  have hb : borrowMonths 2024 ((5 : Int) - 11) = (2023, 6) := by
    rw [borrowMonths_eq 2024 ((5 : Int) - 11) (by norm_num)]
    decide
  rw [filterLastNMonths]
  simp only [hb]
  decide

/-- C7 fails as stated: with `windowMonths = 0` the cutoff is built from
the date components of `now` only, so it is the midnight of that day, not the
exact instant.  At `now` = 2024-06-15 12:00 a contribution at 2024-06-15
00:00 lies strictly before the instant `now` yet is included. -/
theorem C7_counterexample :
    filterLastNMonths [ContributionDay.mk (some (jsMakeDate 2024 5 15)) 1]
        (Instant.mk 2024 5 15 43200000) 0
      = [ContributionDay.mk (some (jsMakeDate 2024 5 15)) 1]
  ∧ jsMakeDate 2024 5 15 < Instant.ts (Instant.mk 2024 5 15 43200000) := by
  constructor
  · rw [filterLastNMonths]
    have hb : borrowMonths 2024 ((5 : Int) - 0) = (2024, 5) := by
      rw [Int.sub_zero]
      exact borrowMonths_nonneg 2024 5 (by norm_num)
    simp only [hb]
    decide
  · decide

/-- C7 amended: for `windowMonths = 0` the cutoff equals the midnight of
the calendar date of `now` (the timestamp of `now` with its time-of-day
discarded), and a record is included iff its date-time is at or after
that midnight — not the exact instant `now`. -/
theorem C7_window_zero (cs : List ContributionDay) (today : Instant)
    (hm0 : 0 ≤ today.month) :
    (∀ c, c ∈ filterLastNMonths cs today 0 ↔
        c ∈ cs ∧ ∃ t, c.date = some t ∧
          jsMakeDate today.year today.month today.day ≤ t)
  ∧ jsMakeDate today.year today.month today.day = Instant.ts today - today.msOfDay := by
  constructor
  · intro c
    rw [filterLastNMonths_mem cs today 0 c, nonneg_window_borrow today hm0]
  · rw [Instant.ts, Int.add_sub_cancel]

/-- Closed witness for the amended C7 at `now` = 2024-06-15 12:00:00:
the midnight contribution of the same day is included. -/
theorem C7_witness :
    ((∀ c, c ∈ filterLastNMonths [ContributionDay.mk (some (jsMakeDate 2024 5 15)) 7]
          (Instant.mk 2024 5 15 43200000) 0 ↔
        c ∈ [ContributionDay.mk (some (jsMakeDate 2024 5 15)) 7] ∧
          ∃ t, c.date = some t ∧ jsMakeDate 2024 5 15 ≤ t)
  ∧ jsMakeDate 2024 5 15 = Instant.ts (Instant.mk 2024 5 15 43200000) - 43200000)
  ∧ ContributionDay.mk (some (jsMakeDate 2024 5 15)) 7 ∈
      filterLastNMonths [ContributionDay.mk (some (jsMakeDate 2024 5 15)) 7]
        (Instant.mk 2024 5 15 43200000) 0 := by
  have h := C7_window_zero [ContributionDay.mk (some (jsMakeDate 2024 5 15)) 7]
    (Instant.mk 2024 5 15 43200000) (by decide)
  refine ⟨h, ?_⟩
  refine (h.1 (ContributionDay.mk (some (jsMakeDate 2024 5 15)) 7)).mpr ?_
  exact ⟨List.mem_cons_self _ _, jsMakeDate 2024 5 15, rfl, le_refl _⟩

/-- C8: a contribution whose date string did not parse (`Invalid Date`)
is never in the filtered output, for every `now` and every window: the
`NaN >= cutoff` comparison is false, and nothing is raised (the filter
is a total function). -/
theorem C8_invalid_date_excluded (cs : List ContributionDay) (today : Instant)
    (w : Int) (c : ContributionDay) (hc : c.date = none) :
    c ∉ filterLastNMonths cs today w := by
  intro hmem
  rw [filterLastNMonths, List.mem_filter, hc] at hmem
  exact Bool.noConfusion hmem.2

/-- Closed witness for C8: an invalid-date record is dropped even though
it is in the input. -/
theorem C8_witness :
    (ContributionDay.mk none 5).date = none
  ∧ ContributionDay.mk none 5 ∉
      filterLastNMonths [ContributionDay.mk none 5] (Instant.mk 2024 0 1 0) 11 :=
  ⟨rfl, C8_invalid_date_excluded [ContributionDay.mk none 5]
    (Instant.mk 2024 0 1 0) 11 (ContributionDay.mk none 5) rfl⟩

/-- C1: for `T ≠ "All"` and records that all carry a `tags` list,
`filterByTag` succeeds and returns exactly the filter of the input by
exact-string tag membership — the order-preserving subsequence of the
records whose tag list contains `T` (soundness, completeness and order
in one equality, plus the subsequence and membership readings). -/
theorem C1_filterByTag_exact {α : Type} (R : List (PhotoMetadata α)) (T : String)
    (hT : T ≠ "All") (htags : ∀ r ∈ R, r.tags ≠ none) :
    filterByTag R T = some (R.filter (fun r => (r.tags.getD []).contains T))
  ∧ List.Sublist (R.filter (fun r => (r.tags.getD []).contains T)) R
  ∧ ∀ r ∈ R, (r ∈ R.filter (fun r => (r.tags.getD []).contains T) ↔
      T ∈ r.tags.getD []) := by
  refine ⟨?_, List.filter_sublist R, ?_⟩
  · rw [filterByTag, if_neg hT]
    exact filterTagsGo_eq_filter T R htags
  · intro r hr
    rw [List.mem_filter]
    constructor
    · rintro ⟨_, hp⟩
      exact List.elem_iff.mp hp
    · intro hm
      exact ⟨hr, List.elem_iff.mpr hm⟩

/-- Closed witness for C1 on a two-record collection and tag `"b"`. -/
theorem C1_witness :
    (filterByTag [PhotoMetadata.mk (some ["a", "b"]) (0 : Nat),
        PhotoMetadata.mk (some ["c"]) 1] "b"
      = some (List.filter (fun r => (r.tags.getD []).contains "b")
          [PhotoMetadata.mk (some ["a", "b"]) (0 : Nat), PhotoMetadata.mk (some ["c"]) 1]))
  ∧ List.Sublist (List.filter (fun r => (r.tags.getD []).contains "b")
        [PhotoMetadata.mk (some ["a", "b"]) (0 : Nat), PhotoMetadata.mk (some ["c"]) 1])
      [PhotoMetadata.mk (some ["a", "b"]) (0 : Nat), PhotoMetadata.mk (some ["c"]) 1]
  ∧ ∀ r ∈ [PhotoMetadata.mk (some ["a", "b"]) (0 : Nat), PhotoMetadata.mk (some ["c"]) 1],
      (r ∈ List.filter (fun r => (r.tags.getD []).contains "b")
          [PhotoMetadata.mk (some ["a", "b"]) (0 : Nat), PhotoMetadata.mk (some ["c"]) 1] ↔
        "b" ∈ r.tags.getD []) :=
  C1_filterByTag_exact
    [PhotoMetadata.mk (some ["a", "b"]) 0, PhotoMetadata.mk (some ["c"]) 1] "b"
    (by decide) (by decide)

/-- C2: selecting the sentinel tag `"All"` returns the input collection
itself, unchanged and in order. -/
theorem C2_filterByTag_all {α : Type} (R : List (PhotoMetadata α)) :
    filterByTag R "All" = some R := by
  rw [filterByTag, if_pos rfl]

/-- C3 fails as stated: on a record whose `tags` field is missing,
`filterByTag` with a non-`"All"` tag does not succeed — the
`photo.tags.includes(selectedTag)` callback throws (modelled `none`)
instead of excluding the record. -/
theorem C3_counterexample :
    "x" ≠ "All"
  ∧ filterByTag [PhotoMetadata.mk none (0 : Nat)] "x" = none := by decide

/-- C3 amended: on a collection containing a record with no `tags`
field, `deriveTagUniverse` still succeeds and treats the record as
contributing no tags (it equals the spec universe built from
`tags.getD []`), and `filterByTag` with `"All"` still succeeds; but
`filterByTag` with any `T ≠ "All"` fails (throws) rather than excluding
the record. -/
theorem C3_missing_tags {α : Type} (R : List (PhotoMetadata α)) (T : String)
    (hmiss : ∃ r ∈ R, r.tags = none) :
    deriveTagUniverse R = specTagUniverse R
  ∧ filterByTag R "All" = some R
  ∧ (T ≠ "All" → filterByTag R T = none) := by
  refine ⟨deriveTagUniverse_eq_spec R, by rw [filterByTag, if_pos rfl], fun hT => ?_⟩
  rw [filterByTag, if_neg hT]
  exact filterTagsGo_of_missing T R hmiss

/-- Closed witness for the amended C3 on a one-record collection whose
record has no `tags` field. -/
theorem C3_witness :
    deriveTagUniverse [PhotoMetadata.mk none (0 : Nat)]
        = specTagUniverse [PhotoMetadata.mk none (0 : Nat)]
  ∧ filterByTag [PhotoMetadata.mk none (0 : Nat)] "All"
        = some [PhotoMetadata.mk none (0 : Nat)]
  ∧ ("x" ≠ "All" → filterByTag [PhotoMetadata.mk none (0 : Nat)] "x" = none) :=
  C3_missing_tags [PhotoMetadata.mk none 0] "x"
    ⟨PhotoMetadata.mk none 0, List.mem_cons_self _ _, rfl⟩

/-- C4 fails as stated: a record carrying the literal tag `"All"` makes
the derived universe `["All", "All"]`, which has a duplicate entry. -/
theorem C4_counterexample :
    deriveTagUniverse [PhotoMetadata.mk (some ["All"]) (0 : Nat)] = ["All", "All"]
  ∧ ¬ (deriveTagUniverse [PhotoMetadata.mk (some ["All"]) (0 : Nat)]).Nodup := by
  decide

/-- C4 amended: provided no record carries the reserved literal tag
`"All"` (the data-model invariant), the derived universe is `"All"`
followed by the distinct non-empty tags in first-appearance order
(`specTagUniverse`, which dedups the left-to-right tag-occurrence
list), it has no duplicates, and on the empty collection it is
`["All"]`. -/
theorem C4_tag_universe {α : Type} (R : List (PhotoMetadata α))
    (hAll : ∀ r ∈ R, "All" ∉ r.tags.getD []) :
    deriveTagUniverse R = specTagUniverse R
  ∧ (deriveTagUniverse R).Nodup
  ∧ deriveTagUniverse ([] : List (PhotoMetadata α)) = ["All"] := by
  refine ⟨deriveTagUniverse_eq_spec R, ?_, rfl⟩
  rw [deriveTagUniverse_eq_spec R, specTagUniverse]
  refine List.nodup_cons.mpr ⟨?_, (dedupFirst_mem_nodup _).2⟩
  intro hmem
  have h1 := (dedupFirst_mem_nodup _).1 _ hmem
  have h2 := (List.mem_filter.mp h1).1
  rw [tagOccurrences, List.mem_flatMap] at h2
  obtain ⟨r, hr, hAllr⟩ := h2
  exact hAll r hr hAllr

/-- Closed witness for the amended C4 on a collection with ordinary
tags. -/
theorem C4_witness :
    deriveTagUniverse [PhotoMetadata.mk (some ["a", "b"]) (0 : Nat),
        PhotoMetadata.mk (some ["b"]) 1]
      = specTagUniverse [PhotoMetadata.mk (some ["a", "b"]) (0 : Nat),
          PhotoMetadata.mk (some ["b"]) 1]
  ∧ (deriveTagUniverse [PhotoMetadata.mk (some ["a", "b"]) (0 : Nat),
        PhotoMetadata.mk (some ["b"]) 1]).Nodup
  ∧ deriveTagUniverse ([] : List (PhotoMetadata Nat)) = ["All"] :=
  C4_tag_universe [PhotoMetadata.mk (some ["a", "b"]) 0, PhotoMetadata.mk (some ["b"]) 1]
    (by decide)

/-- C9: whenever `filterByTag` produces an output, that output is an
order-preserving subsequence of the input built from the very records
of the input — each output record, opaque payload included, is a record
of `R`, and `R` itself is untouched (the embedding is a pure function
of its arguments). -/
theorem C9_output_from_input {α : Type} (R : List (PhotoMetadata α)) (T : String)
    (l : List (PhotoMetadata α)) (h : filterByTag R T = some l) :
    List.Sublist l R ∧ ∀ r ∈ l, r ∈ R := by
  have hs : List.Sublist l R := by
    rw [filterByTag] at h
    by_cases hT : T = "All"
    · rw [if_pos hT] at h
      cases Option.some_inj.mp h
      exact List.Sublist.refl R
    · rw [if_neg hT] at h
      exact filterTagsGo_sublist T R l h
  exact ⟨hs, fun r hr => hs.subset hr⟩

/-- Closed witness for C9 on a one-record collection. -/
theorem C9_witness :
    List.Sublist [PhotoMetadata.mk (some ["a"]) (0 : Nat)]
      [PhotoMetadata.mk (some ["a"]) (0 : Nat)]
  ∧ ∀ r ∈ [PhotoMetadata.mk (some ["a"]) (0 : Nat)],
      r ∈ [PhotoMetadata.mk (some ["a"]) (0 : Nat)] :=
  C9_output_from_input [PhotoMetadata.mk (some ["a"]) 0] "a"
    [PhotoMetadata.mk (some ["a"]) 0] (by decide)

/-- C10: every non-sentinel entry of the derived tag universe selects a
non-empty result: it was harvested from the tag list of some record, and
that record survives the filter. -/
theorem C10_universe_selects {α : Type} (R : List (PhotoMetadata α)) (T : String)
    (htags : ∀ r ∈ R, r.tags ≠ none) (hT : T ∈ deriveTagUniverse R)
    (hA : T ≠ "All") :
    ∃ l, filterByTag R T = some l ∧ l ≠ [] := by
  rw [deriveTagUniverse_eq_spec, specTagUniverse] at hT
  rcases List.mem_cons.mp hT with h | h
  · exact absurd h hA
  · have h1 := (dedupFirst_mem_nodup _).1 _ h
    have h2 := (List.mem_filter.mp h1).1
    rw [tagOccurrences, List.mem_flatMap] at h2
    obtain ⟨r, hr, hTr⟩ := h2
    refine ⟨R.filter (fun r => (r.tags.getD []).contains T), ?_, ?_⟩
    · rw [filterByTag, if_neg hA]
      exact filterTagsGo_eq_filter T R htags
    · exact List.ne_nil_of_mem
        (List.mem_filter.mpr ⟨hr, List.elem_iff.mpr hTr⟩)

/-- Closed witness for C10: tag `"a"` of the universe selects its
record. -/
theorem C10_witness :
    ∃ l, filterByTag [PhotoMetadata.mk (some ["a"]) (0 : Nat)] "a" = some l ∧ l ≠ [] :=
  C10_universe_selects [PhotoMetadata.mk (some ["a"]) 0] "a"
    (by decide) (by decide) (by decide)
